import Mathlib

/-!
Verification of the response-stream aggregation engine of the Vertex AI
generative-model Go client (package genai, file content.go).

The Go source is shallowly embedded: pointer-valued fields become Option,
in-place mutation of the destination aggregate becomes pure value update,
the gRPC stream becomes a list of transport events consumed one at a time,
and the Go error values relevant to the iterator become an explicit error
type.  Domain record types whose declarations live outside the embedded
source file are modelled from the specification, as noted on each.
-/

namespace Genai

/-- A Part is either a Text, a Blob, or a FileData.  In Go these are three
concrete types implementing the Part interface; here they are the three
constructors of a tagged union.  Blob carries a MIME type and raw bytes,
FileData a MIME type and a file URI. -/
inductive Part where
  | Text : String → Part
  | Blob : String → List UInt8 → Part
  | FileData : String → String → Part
  deriving DecidableEq

/-- True exactly on the Text constructor (the Go type switch on Text). -/
def Part.isText : Part → Bool
  | Part.Text _ => true
  | _ => false

/-- The maximal leading run of Text parts of a list: the in-order
concatenation of their strings (strings.Join with empty separator,
performed incrementally) paired with the remainder of the list, which is
either empty or starts with a non-Text part.  This is the inner loop over
j of the Go mergeTexts. -/
def textRun : List Part → String × List Part
  | Part.Text t :: rest => (t ++ (textRun rest).1, (textRun rest).2)
  | l => ("", l)

/-- Go mergeTexts: scan the list; at a Text part, collect the maximal run
of Text parts starting there, emit one Text part holding their in-order
concatenation, and resume after the run; copy any non-Text part verbatim. -/
def mergeTexts : List Part → List Part
  | [] => []
  | Part.Text t :: rest =>
    Part.Text (t ++ (textRun rest).1) :: mergeTexts (textRun rest).2
  | p :: rest => p :: mergeTexts rest
termination_by l => l.length
decreasing_by
  · have H : ∀ l : List Part, (textRun l).2.length ≤ l.length := by
      intro l
      induction l with
      | nil => simp [textRun]
      | cons p rest2 ih =>
        cases p with
        | Text t => simpa only [textRun] using Nat.le_succ_of_le ih
        | Blob m d => simp [textRun]
        | FileData m u => simp [textRun]
    exact Nat.lt_succ_of_le (H rest)
  · simp

/-- Go joinParts: append the source parts to the destination parts, then
collapse adjacent Text runs. -/
def joinParts (dest src : List Part) : List Part :=
  mergeTexts (dest ++ src)

/-- A list whose head, if any, is not a Text part. -/
def headNotText : List Part → Bool
  | Part.Text _ :: _ => false
  | _ => true

/-- No two adjacent Text parts anywhere in the list. -/
def noAdjTexts : List Part → Bool
  | p :: q :: rest => !(p.isText && q.isText) && noAdjTexts (q :: rest)
  | _ => true

/-- In-order concatenation of the strings of all Text parts of a list. -/
def concatTexts : List Part → String
  | [] => ""
  | Part.Text t :: rest => t ++ concatTexts rest
  | _ :: rest => concatTexts rest

/-- The subsequence of non-Text parts of a list. -/
def nonTexts (l : List Part) : List Part :=
  l.filter (fun p => !p.isText)

/-- In-order concatenation of a list of strings (strings.Join with empty
separator). -/
def strJoin (l : List String) : String :=
  l.foldr (fun a b => a ++ b) ""

/-- Modelled from the spec: a citation record.  The domain type lives
outside the embedded source file; the merge engine treats it as opaque
data, so only representative fields are modelled. -/
structure Citation where
  StartIndex : Int
  EndIndex : Int
  URI : String
  deriving DecidableEq

/-- Modelled from the spec: citation metadata, an ordered list of
citation records. -/
structure CitationMetadata where
  Citations : List Citation
  deriving DecidableEq

/-- Modelled from the spec: a per-category safety rating.  Opaque to the
merge engine, which copies these values wholesale. -/
structure SafetyRating where
  Category : Int
  Probability : Int
  Blocked : Bool
  deriving DecidableEq

/-- Modelled from the spec: why a candidate stopped generating.
Safety is the safety-block value tested by protoToResponse. -/
inductive FinishReason where
  | Unspecified
  | Stop
  | MaxTokens
  | Safety
  | Recitation
  | Other
  deriving DecidableEq

/-- Content: a role tag plus an ordered sequence of Parts. -/
structure Content where
  Role : String
  Parts : List Part
  deriving DecidableEq

/-- Modelled from the spec: one generation alternative.  Index is the Go
int32 join key; only equality of indices is ever used by the embedded
code, so it is embedded as Int.  Pointer-valued fields become Option. -/
structure Candidate where
  Index : Int
  Content : Option Content
  FinishReason : FinishReason
  SafetyRatings : List SafetyRating
  CitationMetadata : Option CitationMetadata
  deriving DecidableEq

/-- Modelled from the spec: block-reason enum of a rejected prompt. -/
inductive BlockReason where
  | Unspecified
  | Safety
  | Other
  deriving DecidableEq

/-- Modelled from the spec: feedback signalling the prompt was rejected.
The Go decode step yields a nil pointer for an absent or empty proto
message, embedded by wrapping the record in Option at its use sites. -/
structure PromptFeedback where
  BlockReason : BlockReason
  BlockReasonMessage : String
  SafetyRatings : List SafetyRating
  deriving DecidableEq

/-- The response from a GenerateContent or GenerateContentStream call. -/
structure GenerateContentResponse where
  Candidates : List Candidate
  PromptFeedback : Option PromptFeedback
  deriving DecidableEq

/-- A BlockedError indicates that the response of the model was blocked.
At least one of the two fields is populated. -/
structure BlockedError where
  Candidate : Option Candidate
  PromptFeedback : Option PromptFeedback
  deriving DecidableEq

/-- Go joinCitationMetadata: nil destination adopts the source; nil
source keeps the destination; otherwise append the source citations to
the destination citations. -/
def joinCitationMetadata : Option CitationMetadata → Option CitationMetadata →
    Option CitationMetadata
  | none, src => src
  | some dest, none => some dest
  | some dest, some src => some { dest with Citations := dest.Citations ++ src.Citations }

/-- Go joinContent: nil destination adopts the source; otherwise the
destination keeps its role and merges the part lists via joinParts.
(The Go code reads src.Parts unconditionally in the second branch and
would crash on a nil src there; that unreachable combination is embedded
as an empty source part list.) -/
def joinContent : Option Content → Option Content → Option Content
  | none, src => src
  | some dest, src =>
    some { dest with Parts := joinParts dest.Parts (match src with
      | some s => s.Parts
      | none => []) }

/-- The body of the Go joinCandidateLists loop for one destination
candidate d and the source candidate s found at the same index: merge
the contents, take the finish reason and the safety ratings of the
source, and merge the citation metadata.  Index is untouched. -/
def joinCandidate (d s : Candidate) : Candidate :=
  { d with
    Content := joinContent d.Content s.Content
    FinishReason := s.FinishReason
    SafetyRatings := s.SafetyRatings
    CitationMetadata := joinCitationMetadata d.CitationMetadata s.CitationMetadata }

/-- The Go map indexToSrcCandidate, built by inserting each source
candidate keyed by its Index in list order (a later candidate with the
same index overwrites an earlier one), then looked up at index i. -/
def indexToSrcCandidate (src : List Candidate) (i : Int) : Option Candidate :=
  src.foldl (fun acc s => if s.Index = i then some s else acc) none

/-- Go joinCandidateLists: every destination candidate whose index also
occurs in the source is merged with the source candidate of that index;
every other destination candidate is kept untouched.  Source candidates
whose index is absent from the destination are not added. -/
def joinCandidateLists (dest src : List Candidate) : List Candidate :=
  dest.map (fun d =>
    match indexToSrcCandidate src d.Index with
    | some s => joinCandidate d s
    | none => d)

/-- Go joinResponses: a nil destination adopts the source wholesale;
otherwise the candidate lists are merged and the destination
PromptFeedback is kept. -/
def joinResponses : Option GenerateContentResponse → GenerateContentResponse →
    GenerateContentResponse
  | none, src => src
  | some dest, src => { dest with Candidates := joinCandidateLists dest.Candidates src.Candidates }

/-- Folding a chunk sequence through joinResponses starting from the
empty accumulator, exactly as the streaming loop does. -/
def foldResponses (chunks : List GenerateContentResponse) : Option GenerateContentResponse :=
  chunks.foldl (fun acc c => some (joinResponses acc c)) none

/-- A raw transport chunk after the per-field proto decoding (the
fromProto helpers live outside the embedded source file): an optional
PromptFeedback — none embeds the nil pointer the Go decode returns for
an absent or empty proto message — and the decoded candidate list. -/
structure RawChunk where
  PromptFeedback : Option PromptFeedback
  Candidates : List Candidate
  deriving DecidableEq

/-- Go protoToResponse: a present PromptFeedback fails the decode at
once with a BlockedError carrying it; otherwise the first candidate in
list order whose finish reason is the safety-block value fails the
decode with a BlockedError carrying that candidate; otherwise the chunk
becomes a response holding the candidate list. -/
def protoToResponse (resp : RawChunk) : Except BlockedError GenerateContentResponse :=
  match resp.PromptFeedback with
  | some pf => Except.error { Candidate := none, PromptFeedback := some pf }
  | none =>
    match resp.Candidates.find? (fun c => decide (c.FinishReason = FinishReason.Safety)) with
    | some c => Except.error { Candidate := some c, PromptFeedback := none }
    | none => Except.ok { Candidates := resp.Candidates, PromptFeedback := none }

/-- One event of the embedded transport stream: a successful Recv
yielding a raw chunk, a clean end of stream (io.EOF), or any other
transport error, identified by a numeric code. -/
inductive RecvEvent where
  | chunk : RawChunk → RecvEvent
  | eof : RecvEvent
  | errEvent : Nat → RecvEvent
  deriving DecidableEq

/-- The Go error values the iterator stores or returns: io.EOF, the
Done sentinel of the iterator package, a transport error, or a
BlockedError. -/
inductive GoError where
  | ioEOF : GoError
  | iteratorDone : GoError
  | transport : Nat → GoError
  | blocked : BlockedError → GoError
  deriving DecidableEq

/-- sc.Recv() on the embedded transport: pop the next event; an
exhausted event list keeps signalling a clean end of stream. -/
def recv : List RecvEvent → RecvEvent × List RecvEvent
  | [] => (RecvEvent.eof, [])
  | e :: rest => (e, rest)

/-- Iterator state: the remaining transport events, the stored error
field, and the running merged aggregate.  The ChatSession pointer of the
Go struct is nil for every iterator the embedded source file constructs,
so the addToHistory call on end of stream touches no modelled state. -/
structure GenIterState where
  stream : List RecvEvent
  err : Option GoError
  merged : Option GenerateContentResponse
  deriving DecidableEq

/-- Go GenerateContentResponseIterator.Next, returning the per-chunk
response, the returned error (none on success), and the new iterator
state.  A stored error is returned as is without touching the
transport.  On a fresh Recv: io.EOF is stored in err but the Done
sentinel is returned; any other Recv error is stored and returned; a
decode failure is stored and returned; a decoded chunk is folded into
the merged aggregate via joinResponses and returned unmerged. -/
def next (iter : GenIterState) : Option GenerateContentResponse × Option GoError × GenIterState :=
  match iter.err with
  | some e => (none, some e, iter)
  | none =>
    match recv iter.stream with
    | (RecvEvent.eof, rest) =>
      (none, some GoError.iteratorDone,
        { iter with stream := rest, err := some GoError.ioEOF })
    | (RecvEvent.errEvent n, rest) =>
      (none, some (GoError.transport n),
        { iter with stream := rest, err := some (GoError.transport n) })
    | (RecvEvent.chunk c, rest) =>
      match protoToResponse c with
      | Except.error be =>
        (none, some (GoError.blocked be),
          { iter with stream := rest, err := some (GoError.blocked be) })
      | Except.ok gcp =>
        (some gcp, none,
          { iter with stream := rest, merged := some (joinResponses iter.merged gcp) })

/-- The loop of Go GenerativeModel.generateContent: call Next until it
returns an error; at the Done sentinel return the merged aggregate with
a nil error, at any other error return a nil response with that error. -/
def genLoop (iter : GenIterState) : Option GenerateContentResponse × Option GoError :=
  match h : (next iter).2.1 with
  | some GoError.iteratorDone => ((next iter).2.2.merged, none)
  | some e => (none, some e)
  | none => genLoop (next iter).2.2
termination_by iter.stream.length
decreasing_by
  obtain ⟨stream, err, merged⟩ := iter
  cases err with
  | some e => simp [next] at h
  | none =>
    cases stream with
    | nil => simp [next, recv] at h
    | cons e rest =>
      cases e with
      | eof => simp [next, recv] at h
      | errEvent n => simp [next, recv] at h
      | chunk c =>
        cases hp : protoToResponse c with
        | error be => simp [next, recv, hp] at h
        | ok gcp => simp [next, recv, hp]

/-- Go GenerativeModel.generateContent: build an iterator whose err
field holds any error from opening the stream, then drive it to
completion, discarding the per-chunk responses. -/
def generateContent (openErr : Option GoError) (events : List RecvEvent) :
    Option GenerateContentResponse × Option GoError :=
  genLoop { stream := events, err := openErr, merged := none }

/-- A chunk carries no blocking signal: no PromptFeedback and no
candidate whose finish reason is the safety-block value. -/
def noBlock (r : GenerateContentResponse) : Bool :=
  r.PromptFeedback.isNone &&
    r.Candidates.all (fun c => decide (c.FinishReason ≠ FinishReason.Safety))

/-- The candidate index list of an optional aggregate. -/
def aggIndices : Option GenerateContentResponse → List Int
  | none => []
  | some r => r.Candidates.map Candidate.Index

/-- A candidate at index 0 (model role) carrying one Text part, as
produced by a plain streaming text generation. -/
def skyCand (t : String) : Candidate :=
  { Index := 0
  , Content := some { Role := "model", Parts := [Part.Text t] }
  , FinishReason := FinishReason.Unspecified
  , SafetyRatings := []
  , CitationMetadata := none }

/-- A single-candidate chunk holding skyCand. -/
def skyChunk (t : String) : GenerateContentResponse :=
  { Candidates := [skyCand t], PromptFeedback := none }

/-- A contentless candidate at a given index. -/
def idxCand (i : Int) : Candidate :=
  { Index := i
  , Content := none
  , FinishReason := FinishReason.Stop
  , SafetyRatings := []
  , CitationMetadata := none }

/-- A block-free chunk holding the single candidate of a given index. -/
def idxChunk (i : Int) : GenerateContentResponse :=
  { Candidates := [idxCand i], PromptFeedback := none }

/-- A candidate at a given index with a given finish reason. -/
def frCand (i : Int) (fr : FinishReason) : Candidate :=
  { idxCand i with FinishReason := fr }

theorem textRun_snd_headNotText : ∀ l : List Part, headNotText (textRun l).2 = true := by
  intro l
  match l with
  | Part.Text t :: rest => simpa only [textRun] using textRun_snd_headNotText rest
  | [] => simp [textRun, headNotText]
  | Part.Blob m d :: rest => simp [textRun, headNotText]
  | Part.FileData m u :: rest => simp [textRun, headNotText]

theorem textRun_of_headNotText (l : List Part) (h : headNotText l = true) :
    textRun l = ("", l) := by
  match l with
  | [] => simp [textRun]
  | Part.Text t :: rest => simp [headNotText] at h
  | Part.Blob m d :: rest => simp [textRun]
  | Part.FileData m u :: rest => simp [textRun]

theorem mergeTexts_headNotText (l : List Part) (h : headNotText l = true) :
    headNotText (mergeTexts l) = true := by
  match l with
  | [] => simpa [mergeTexts] using h
  | Part.Text t :: rest => simp [headNotText] at h
  | Part.Blob m d :: rest => simp [mergeTexts, headNotText]
  | Part.FileData m u :: rest => simp [mergeTexts, headNotText]

theorem noAdjTexts_cons_of_headNotText (p : Part) (l : List Part)
    (h : headNotText l = true) : noAdjTexts (p :: l) = noAdjTexts l := by
  match l with
  | [] => simp [noAdjTexts]
  | q :: rest =>
    have hq : q.isText = false := by
      cases q <;> simp_all [headNotText, Part.isText]
    simp [noAdjTexts, hq]

theorem noAdjTexts_cons_of_not_isText (p : Part) (l : List Part)
    (h : p.isText = false) : noAdjTexts (p :: l) = noAdjTexts l := by
  match l with
  | [] => simp [noAdjTexts]
  | q :: rest => simp [noAdjTexts, h]

theorem mergeTexts_noAdjTexts : ∀ l : List Part, noAdjTexts (mergeTexts l) = true := by
  intro l
  induction l using mergeTexts.induct with
  | case1 => simp [mergeTexts, noAdjTexts]
  | case2 t rest ih =>
    rw [mergeTexts, noAdjTexts_cons_of_headNotText _ _
      (mergeTexts_headNotText _ (textRun_snd_headNotText rest))]
    exact ih
  | case3 p rest hp ih =>
    have hpt : p.isText = false := by
      cases p with
      | Text t => exact absurd rfl (hp t)
      | Blob m d => rfl
      | FileData m u => rfl
    rw [mergeTexts.eq_3, noAdjTexts_cons_of_not_isText _ _ hpt]
    · exact ih
    · intro t ht
      exact hp t ht

theorem textRun_concatTexts : ∀ l : List Part,
    concatTexts l = (textRun l).1 ++ concatTexts (textRun l).2 := by
  intro l
  match l with
  | [] => simp [textRun, concatTexts]
  | Part.Text t :: rest =>
    simp only [textRun, concatTexts]
    rw [textRun_concatTexts rest, String.append_assoc]
  | Part.Blob m d :: rest => simp [textRun]
  | Part.FileData m u :: rest => simp [textRun]

theorem mergeTexts_concatTexts : ∀ l : List Part,
    concatTexts (mergeTexts l) = concatTexts l := by
  intro l
  induction l using mergeTexts.induct with
  | case1 => simp [mergeTexts]
  | case2 t rest ih =>
    rw [mergeTexts]
    simp only [concatTexts]
    rw [ih, String.append_assoc, ← textRun_concatTexts rest]
  | case3 p rest hp ih =>
    rw [mergeTexts.eq_3]
    · cases p with
      | Text t => exact absurd rfl (hp t)
      | Blob m d => simpa only [concatTexts] using ih
      | FileData m u => simpa only [concatTexts] using ih
    · intro t ht
      exact hp t ht

theorem textRun_nonTexts : ∀ l : List Part, nonTexts (textRun l).2 = nonTexts l := by
  intro l
  match l with
  | [] => simp [textRun]
  | Part.Text t :: rest =>
    simp only [textRun]
    rw [textRun_nonTexts rest]
    simp [nonTexts, Part.isText]
  | Part.Blob m d :: rest => simp [textRun]
  | Part.FileData m u :: rest => simp [textRun]

theorem mergeTexts_nonTexts : ∀ l : List Part, nonTexts (mergeTexts l) = nonTexts l := by
  intro l
  induction l using mergeTexts.induct with
  | case1 => simp [mergeTexts]
  | case2 t rest ih =>
    rw [mergeTexts]
    have h1 : nonTexts (Part.Text (t ++ (textRun rest).1) :: mergeTexts (textRun rest).2)
        = nonTexts (mergeTexts (textRun rest).2) := by
      simp [nonTexts, Part.isText]
    rw [h1, ih, textRun_nonTexts rest]
    simp [nonTexts, Part.isText]
  | case3 p rest hp ih =>
    rw [mergeTexts.eq_3]
    · have hpt : p.isText = false := by
        cases p with
        | Text t => exact absurd rfl (hp t)
        | Blob m d => rfl
        | FileData m u => rfl
      simp [nonTexts, hpt]
      simpa [nonTexts] using ih
    · intro t ht
      exact hp t ht

theorem noAdjTexts_tail (p : Part) (l : List Part) (h : noAdjTexts (p :: l) = true) :
    noAdjTexts l = true := by
  match l with
  | [] => simp [noAdjTexts]
  | q :: rest =>
    simp only [noAdjTexts, Bool.and_eq_true] at h
    exact h.2

theorem noAdjTexts_headNotText_tail (t : String) (l : List Part)
    (h : noAdjTexts (Part.Text t :: l) = true) : headNotText l = true := by
  match l with
  | [] => rfl
  | Part.Text s :: rest => simp [noAdjTexts, Part.isText] at h
  | Part.Blob m d :: rest => rfl
  | Part.FileData m u :: rest => rfl

theorem mergeTexts_of_noAdjTexts : ∀ l : List Part, noAdjTexts l = true → mergeTexts l = l := by
  intro l h
  match l with
  | [] => simp [mergeTexts]
  | Part.Text t :: rest =>
    rw [mergeTexts, textRun_of_headNotText rest (noAdjTexts_headNotText_tail t rest h)]
    rw [mergeTexts_of_noAdjTexts rest (noAdjTexts_tail _ _ h)]
    simp
  | Part.Blob m d :: rest =>
    rw [mergeTexts.eq_3 (Part.Blob m d) rest (fun t ht => Part.noConfusion ht),
      mergeTexts_of_noAdjTexts rest (noAdjTexts_tail _ _ h)]
  | Part.FileData m u :: rest =>
    rw [mergeTexts.eq_3 (Part.FileData m u) rest (fun t ht => Part.noConfusion ht),
      mergeTexts_of_noAdjTexts rest (noAdjTexts_tail _ _ h)]

theorem mergeTexts_idem (l : List Part) : mergeTexts (mergeTexts l) = mergeTexts l :=
  mergeTexts_of_noAdjTexts (mergeTexts l) (mergeTexts_noAdjTexts l)

theorem textRun_run (ts : List String) (rest : List Part) (h : headNotText rest = true) :
    textRun (ts.map Part.Text ++ rest) = (strJoin ts, rest) := by
  match ts with
  | [] =>
    simp only [List.map_nil, List.nil_append, strJoin, List.foldr_nil]
    exact textRun_of_headNotText rest h
  | t :: ts2 =>
    rw [List.map_cons, List.cons_append, textRun, textRun_run ts2 rest h]
    simp [strJoin]

/-- Maximal-run collapsing: a nonempty run of Text parts followed by a
list not starting with a Text part merges to a single Text part holding
the in-order concatenation of the run. -/
theorem mergeTexts_run (t : String) (ts : List String) (rest : List Part)
    (h : headNotText rest = true) :
    mergeTexts (Part.Text t :: (ts.map Part.Text ++ rest))
      = Part.Text (t ++ strJoin ts) :: mergeTexts rest := by
  rw [mergeTexts, textRun_run ts rest h]

theorem joinCandidate_index (d s : Candidate) : (joinCandidate d s).Index = d.Index := rfl

theorem joinCandidateLists_indices (dest src : List Candidate) :
    (joinCandidateLists dest src).map Candidate.Index = dest.map Candidate.Index := by
  induction dest with
  | nil => rfl
  | cons d rest ih =>
    simp only [joinCandidateLists, List.map_cons] at ih ⊢
    refine congrArg₂ List.cons ?_ ih
    cases indexToSrcCandidate src d.Index <;> rfl

theorem foldl_join_indices (chunks : List GenerateContentResponse)
    (r : GenerateContentResponse) :
    aggIndices (chunks.foldl (fun acc c => some (joinResponses acc c)) (some r))
      = r.Candidates.map Candidate.Index := by
  induction chunks generalizing r with
  | nil => rfl
  | cons c rest ih =>
    simp only [List.foldl_cons]
    rw [ih (joinResponses (some r) c)]
    exact joinCandidateLists_indices r.Candidates c.Candidates

theorem genLoop_of_done (iter : GenIterState)
    (hdone : (next iter).2.1 = some GoError.iteratorDone) :
    genLoop iter = ((next iter).2.2.merged, none) := by
  rw [genLoop]
  split <;> simp_all

/-- Claim C1, as stated, is false: in a block-free two-chunk sequence
whose second chunk introduces candidate index 1, the folded aggregate
keeps only index 0 — index 1 is seen in a chunk yet absent from the
final candidate index set, so that set is not the union of the indices
seen. -/
theorem C1_counterexample :
    noBlock (idxChunk 0) = true ∧ noBlock (idxChunk 1) = true
    ∧ aggIndices (foldResponses [idxChunk 0, idxChunk 1]) = [0]
    ∧ (1 : Int) ∈ (idxChunk 1).Candidates.map Candidate.Index
    ∧ (1 : Int) ∉ aggIndices (foldResponses [idxChunk 0, idxChunk 1]) := by
  decide

/-- Claim C1 (amended): for every chunk sequence containing no blocking
signals, folding the chunks through the merge yields a final aggregate
whose candidate index set equals the candidate index set of the first
chunk; indices first appearing in a later chunk are dropped. -/
theorem C1_indices_first_chunk (c0 : GenerateContentResponse)
    (rest : List GenerateContentResponse)
    (hnb : ∀ c ∈ c0 :: rest, noBlock c = true) :
    aggIndices (foldResponses (c0 :: rest)) = c0.Candidates.map Candidate.Index := by
  unfold foldResponses
  rw [List.foldl_cons]
  exact foldl_join_indices rest (joinResponses none c0)

theorem C1_indices_first_chunk_witness :
    aggIndices (foldResponses [idxChunk 0, idxChunk 1]) = [0] := by
  have h := C1_indices_first_chunk (idxChunk 0) [idxChunk 1] (by decide)
  simpa [idxChunk, idxCand, aggIndices] using h

/-- Claim C2: for a candidate present in both sides of a merge, with
both contents present, the merged Content keeps the destination role and
its parts are the destination parts followed by the source parts with
every maximal run of adjacent Text parts collapsed into a single Text
part by in-order concatenation (the run lemma); in particular a
destination ending in Text "ab" merged with a source beginning with
Text "cd" yields the single part Text "abcd", and the three-chunk
single-candidate stream "The sky" or " is" or " blue." folds to one
candidate whose Content holds exactly the one part
Text "The sky is blue.". -/
theorem C2_merged_content (d s : Candidate) (dc sc : Content)
    (hd : d.Content = some dc) (hs : s.Content = some sc) :
    (joinCandidate d s).Content = some { dc with Parts := mergeTexts (dc.Parts ++ sc.Parts) }
    ∧ (∀ (t : String) (ts : List String) (l : List Part), headNotText l = true →
        mergeTexts (Part.Text t :: (ts.map Part.Text ++ l))
          = Part.Text (t ++ strJoin ts) :: mergeTexts l)
    ∧ joinParts [Part.Text "ab"] [Part.Text "cd"] = [Part.Text "abcd"]
    ∧ foldResponses [skyChunk "The sky", skyChunk " is", skyChunk " blue."]
        = some { Candidates := [{ Index := 0
                                , Content := some { Role := "model"
                                                  , Parts := [Part.Text "The sky is blue."] }
                                , FinishReason := FinishReason.Unspecified
                                , SafetyRatings := []
                                , CitationMetadata := none }]
               , PromptFeedback := none } := by
  refine ⟨?_, fun t ts l hl => mergeTexts_run t ts l hl, ?_, ?_⟩
  · simp [joinCandidate, joinContent, hd, hs, joinParts]
  · simp [joinParts, mergeTexts, textRun]
  · simp [foldResponses, joinResponses, joinCandidateLists, indexToSrcCandidate,
      joinCandidate, joinContent, joinParts, mergeTexts, textRun,
      joinCitationMetadata, skyChunk, skyCand]

theorem C2_merged_content_witness :
    (joinCandidate (skyCand "x") (skyCand "y")).Content
      = some { Role := "model", Parts := mergeTexts ([Part.Text "x"] ++ [Part.Text "y"]) } :=
  (C2_merged_content (skyCand "x") (skyCand "y")
    { Role := "model", Parts := [Part.Text "x"] }
    { Role := "model", Parts := [Part.Text "y"] } rfl rfl).1

/-- Claim C3 fails on the code: after a clean end of stream the call
that enters the terminal state returns the Done sentinel while the next
call returns the stored raw io.EOF value, so the two terminal signals
differ, although the transport is indeed not pulled again (the state is
unchanged). -/
theorem C3_terminal_signal_differs :
    ((next { stream := [RecvEvent.eof], err := none, merged := none }).2.1
        = some GoError.iteratorDone)
    ∧ ((next (next { stream := [RecvEvent.eof], err := none, merged := none }).2.2).2.1
        = some GoError.ioEOF)
    ∧ ((next (next { stream := [RecvEvent.eof], err := none, merged := none }).2.2).2.2
        = (next { stream := [RecvEvent.eof], err := none, merged := none }).2.2)
    ∧ some GoError.iteratorDone ≠ some GoError.ioEOF := by
  decide

/-- Claim C4: a chunk decoding to a present PromptFeedback fails the
decode with a BlockedError carrying exactly that feedback and no
candidate, whatever the candidate list holds — the candidates are never
examined. -/
theorem C4_promptFeedback_blocks_decode (pf : PromptFeedback) (cands : List Candidate) :
    protoToResponse { PromptFeedback := some pf, Candidates := cands }
      = Except.error { Candidate := none, PromptFeedback := some pf } := rfl

/-- Claim C5: with no PromptFeedback, the first candidate in list order
whose finish reason is the safety-block value makes the decode fail with
a BlockedError carrying that candidate, regardless of the candidates
around it. -/
theorem C5_first_blocked_candidate (pre post : List Candidate) (c : Candidate)
    (hpre : ∀ d ∈ pre, d.FinishReason ≠ FinishReason.Safety)
    (hc : c.FinishReason = FinishReason.Safety) :
    protoToResponse { PromptFeedback := none, Candidates := pre ++ c :: post }
      = Except.error { Candidate := some c, PromptFeedback := none } := by
  have hfind : ∀ pre2 : List Candidate,
      (∀ d ∈ pre2, d.FinishReason ≠ FinishReason.Safety) →
      (pre2 ++ c :: post).find? (fun x => decide (x.FinishReason = FinishReason.Safety))
        = some c := by
    intro pre2 hpre2
    induction pre2 with
    | nil =>
      rw [List.nil_append, List.find?_cons_of_pos]
      simp [hc]
    | cons d rest ih =>
      rw [List.cons_append, List.find?_cons_of_neg]
      · exact ih (fun d2 h2 => hpre2 d2 (List.mem_cons_of_mem d h2))
      · simp [hpre2 d (List.mem_cons_self d rest)]
  simp [protoToResponse, hfind pre hpre]

theorem C5_first_blocked_candidate_witness :
    protoToResponse { PromptFeedback := none
                    , Candidates := [frCand 0 FinishReason.Stop]
                        ++ frCand 1 FinishReason.Safety :: [frCand 2 FinishReason.Stop] }
      = Except.error { Candidate := some (frCand 1 FinishReason.Safety)
                     , PromptFeedback := none } :=
  C5_first_blocked_candidate [frCand 0 FinishReason.Stop] [frCand 2 FinishReason.Stop]
    (frCand 1 FinishReason.Safety) (by decide) (by decide)

/-- Claim C6: merging is left-biased on PromptFeedback — with a present
destination aggregate, the merged PromptFeedback is the destination one,
whatever the source carries. -/
theorem C6_promptFeedback_left_biased (dest src : GenerateContentResponse) :
    (joinResponses (some dest) src).PromptFeedback = dest.PromptFeedback := rfl

/-- Claim C7: citation merging appends the source citations after the
destination citations in order, preserving duplicates, and a destination
with no citation metadata adopts the source wholesale; merging a list
holding c1 with a list holding c2 yields the two-element list c1, c2. -/
theorem C7_citation_append (dcm scm : CitationMetadata) (src : Option CitationMetadata)
    (c1 c2 : Citation) :
    joinCitationMetadata (some dcm) (some scm)
        = some { dcm with Citations := dcm.Citations ++ scm.Citations }
    ∧ joinCitationMetadata none src = src
    ∧ joinCitationMetadata (some { Citations := [c1] }) (some { Citations := [c2] })
        = some { Citations := [c1, c2] } :=
  ⟨rfl, rfl, rfl⟩

/-- Claim C8: text collapsing never crosses a non-Text part — two Text
parts separated by any non-Text part stay separate, so the three-part
sequence is returned unchanged by mergeTexts. -/
theorem C8_no_collapse_across_nonText (a b : String) (x : Part) (hx : x.isText = false) :
    mergeTexts [Part.Text a, x, Part.Text b] = [Part.Text a, x, Part.Text b] := by
  cases x with
  | Text t => simp [Part.isText] at hx
  | Blob m d => simp [mergeTexts, textRun]
  | FileData m u => simp [mergeTexts, textRun]

theorem C8_no_collapse_witness :
    mergeTexts [Part.Text "a", Part.Blob "image/png" [7], Part.Text "b"]
      = [Part.Text "a", Part.Blob "image/png" [7], Part.Text "b"] :=
  C8_no_collapse_across_nonText "a" "b" (Part.Blob "image/png" [7]) rfl

/-- Claim C9: a transport stream delivering a clean end of stream before
any chunk makes the single-shot call return a nil aggregate together
with a nil error. -/
theorem C9_eof_before_any_chunk (rest : List RecvEvent) :
    generateContent none (RecvEvent.eof :: rest) = (none, none) := by
  unfold generateContent
  rw [genLoop_of_done]
  · simp [next, recv]
  · simp [next, recv]

/-- Claim C10: mergeTexts is content-preserving and idempotent — its
output has no two adjacent Text parts, preserves the in-order
concatenation of all text and the subsequence of non-Text parts, and is
a fixed point of mergeTexts. -/
theorem C10_mergeTexts_invariants (l : List Part) :
    noAdjTexts (mergeTexts l) = true
    ∧ concatTexts (mergeTexts l) = concatTexts l
    ∧ nonTexts (mergeTexts l) = nonTexts l
    ∧ mergeTexts (mergeTexts l) = mergeTexts l :=
  ⟨mergeTexts_noAdjTexts l, mergeTexts_concatTexts l, mergeTexts_nonTexts l, mergeTexts_idem l⟩

end Genai
